import Mathlib

/-!
Verification of the template placeholder resolution engine of
`src/prefect/utilities/templating.py`.

Strings are modelled as `List Char` (the source operates on Python `str`;
the character classes `\w` and `\s` of the scanning regex are modelled at
their ASCII meaning).  Python's dynamic value universe (the union type
`T = str | int | float | bool | dict | list | None` plus the `NotSet`
sentinel) is modelled by the inductive type `Value`; Python `dict`s are
modelled as association lists with unique keys in insertion order.
Python floats are opaque leaves: the engine never computes with them, so a
float is carried as its shortest-round-trip decimal rendering (the string
`repr` returns for it), which is injective on floats.
-/

/-- Convert a string literal to the character-list representation used
throughout this development. -/
def chars (s : String) : List Char := s.data

/-- ASCII reading of the regex character class `\w` (word characters). -/
def isWordChar (c : Char) : Bool := c.isAlpha || c.isDigit || c = '_'

/-- Characters allowed in a placeholder name: the regex class `[\w\.-]`. -/
def isIdentChar (c : Char) : Bool := isWordChar c || c = '.' || c = '-'

/-- ASCII reading of the regex character class `\s`. -/
def isSpaceChar (c : Char) : Bool :=
  c = ' ' || c = '\t' || c = '\n' || c = '\r' || c = '\x0b' || c = '\x0c'

/-- Anchored match of the pattern `\x7b\x7b\s*([\w\.-]+)\s*\x7d\x7d` at the
head of the input.  Returns the full match, the captured name, and the
remainder of the input.  The character classes involved are pairwise
disjoint and disjoint from the brace delimiters, so greedy matching needs
no backtracking and this function is exactly the regex's behaviour. -/
def matchPlaceholder : List Char → Option (List Char × List Char × List Char)
  | '\x7b' :: '\x7b' :: rest =>
    let ws1 := rest.takeWhile isSpaceChar
    let r1 := rest.dropWhile isSpaceChar
    let ident := r1.takeWhile isIdentChar
    let r2 := r1.dropWhile isIdentChar
    if ident = [] then none
    else
      let ws2 := r2.takeWhile isSpaceChar
      let r3 := r2.dropWhile isSpaceChar
      match r3 with
      | '\x7d' :: '\x7d' :: rest' =>
        some ('\x7b' :: '\x7b' :: (ws1 ++ ident ++ ws2 ++ ['\x7d', '\x7d']), ident, rest')
      | _ => none
  | _ => none

/-- Left-to-right scan collecting all non-overlapping matches, as
`re.findall` does: try to match at the current position, consume the match
on success, otherwise advance one character.  The fuel argument is the
length of the remaining input; a successful match consumes at least five
characters, so the fuel never runs out when initialised that way. -/
def scanAux : Nat → List Char → List (List Char × List Char)
  | 0, _ => []
  | _ + 1, [] => []
  | fuel + 1, c :: cs =>
    match matchPlaceholder (c :: cs) with
    | some (fm, nm, rest') => (fm, nm) :: scanAux fuel rest'
    | none => scanAux fuel cs

/-- All `(full_match, name)` pairs of `PLACEHOLDER_CAPTURE_REGEX.findall`. -/
def findallPlaceholders (s : List Char) : List (List Char × List Char) :=
  scanAux s.length s

/-- The constant `BLOCK_DOCUMENT_PLACEHOLDER_` + `PREFIX` of the source:
the fixed name prefix `prefect.blocks.` that marks block-document
placeholders. -/
def blockDocumentMarker : List Char := chars "prefect.blocks."

/-- The enum `PlaceholderType` of the source. -/
inductive PlaceholderType where
  | standard
  | blockDocument
deriving DecidableEq

/-- The named tuple `Placeholder(full_match, name, type)` of the source. -/
structure Placeholder where
  full_match : List Char
  name : List Char
  type : PlaceholderType
deriving DecidableEq

/-- Source `determine_placeholder_type`: the kind is `BLOCK_DOCUMENT`
exactly when the name starts with the fixed prefix. -/
def determine_placeholder_type (name : List Char) : PlaceholderType :=
  if blockDocumentMarker.isPrefixOf name then .blockDocument else .standard

/-- Keep the first occurrence of each element, dropping later duplicates.
The source stores placeholders in a Python `set`, whose iteration order is
unspecified; this development fixes discovery (first-occurrence) order as
the set's enumeration order. -/
def dedupAux (seen : List Placeholder) : List Placeholder → List Placeholder
  | [] => []
  | p :: ps => if p ∈ seen then dedupAux seen ps else p :: dedupAux (p :: seen) ps

/-- The string case of source `find_placeholders`: scan with the regex and
build the set of `Placeholder` triples. -/
def findPlaceholdersStr (s : List Char) : List Placeholder :=
  dedupAux []
    ((findallPlaceholders s).map
      (fun fmnm => ⟨fmnm.1, fmnm.2, determine_placeholder_type fmnm.2⟩))

/-- The dynamic value universe the engine operates on: Python's
`str | int | float | bool | dict | list | None`, together with the
`NotSet` sentinel, which in the source lives in the same universe. -/
inductive Value where
  | null
  | bool (b : Bool)
  | int (n : Int)
  | float (r : List Char)
  | str (s : List Char)
  | list (xs : List Value)
  | dict (kvs : List (List Char × Value))
  | notSet

/-- Decidable test used where the source compares with `is NotSet`. -/
def isNotSet : Value → Bool
  | .notSet => true
  | _ => false

/-- Decidable test used where the source compares with `is not None`. -/
def isNull : Value → Bool
  | .null => true
  | _ => false

mutual

def beqV : Value → Value → Bool
  | .null, .null => true
  | .bool a, .bool b => a = b
  | .int a, .int b => a = b
  | .float a, .float b => a = b
  | .str a, .str b => a = b
  | .list a, .list b => beqL a b
  | .dict a, .dict b => beqD a b
  | .notSet, .notSet => true
  | _, _ => false

def beqL : List Value → List Value → Bool
  | [], [] => true
  | a :: as', b :: bs' => beqV a b && beqL as' bs'
  | _, _ => false

def beqD : List (List Char × Value) → List (List Char × Value) → Bool
  | [], [] => true
  | (k, v) :: as', (k', v') :: bs' => k = k' && beqV v v' && beqD as' bs'
  | _, _ => false

end

mutual

theorem beqV_iff : ∀ a b : Value, beqV a b = true ↔ a = b
  | .null, b => by cases b <;> simp [beqV]
  | .bool x, b => by cases b <;> simp [beqV]
  | .int x, b => by cases b <;> simp [beqV]
  | .float x, b => by cases b <;> simp [beqV]
  | .str x, b => by cases b <;> simp [beqV]
  | .list xs, b => by
      cases b <;> simp [beqV]
      exact beqL_iff xs _
  | .dict kvs, b => by
      cases b <;> simp [beqV]
      exact beqD_iff kvs _
  | .notSet, b => by cases b <;> simp [beqV]

theorem beqL_iff : ∀ a b : List Value, beqL a b = true ↔ a = b
  | [], b => by cases b <;> simp [beqL]
  | x :: xs, b => by
      cases b with
      | nil => simp [beqL]
      | cons y ys => simp [beqL, beqV_iff x y, beqL_iff xs ys]

theorem beqD_iff : ∀ a b : List (List Char × Value), beqD a b = true ↔ a = b
  | [], b => by cases b <;> simp [beqD]
  | (k, v) :: xs, b => by
      cases b with
      | nil => simp [beqD]
      | cons y ys =>
        obtain ⟨k', v'⟩ := y
        simp [beqD, beqV_iff v v', beqD_iff xs ys, and_assoc]

end

instance : DecidableEq Value := fun a b =>
  decidable_of_iff (beqV a b = true) (beqV_iff a b)

/-- A Python dict of values, modelled as an association list with keys
unique and in insertion order. -/
abbrev Ctx := List (List Char × Value)

/-- Python `dict.get`: the value stored under the key, if any. -/
def assocGet (kvs : List (List Char × Value)) (k : List Char) : Option Value :=
  match kvs with
  | [] => none
  | (k', v) :: rest => if k' = k then some v else assocGet rest k

/-- Python `str.replace` on character lists: replace all non-overlapping
occurrences of `pat` left to right.  An empty pattern inserts `repl`
before every character and at the end, as Python does.  The fuel is the
length of the input. -/
def strReplaceAux (pat repl : List Char) : Nat → List Char → List Char
  | 0, s => s
  | _ + 1, [] => []
  | fuel + 1, c :: cs =>
    if pat.isPrefixOf (c :: cs) then
      repl ++ strReplaceAux pat repl fuel ((c :: cs).drop pat.length)
    else c :: strReplaceAux pat repl fuel cs

/-- Python `str.replace(pat, repl)`. -/
def strReplace (s pat repl : List Char) : List Char :=
  if pat = [] then repl ++ s.flatMap (fun c => c :: repl)
  else strReplaceAux pat repl s.length s

/-- Python `str.split(sep)` for a single-character separator: splits on
every occurrence, keeping empty parts, and yields `[""]` on the empty
string. -/
def splitOnChar (sep : Char) : List Char → List (List Char)
  | [] => [[]]
  | c :: cs =>
    match splitOnChar sep cs with
    | [] => [[]]
    | h :: t => if c = sep then [] :: h :: t else (c :: h) :: t

/-- Hexadecimal digit, lower case, as Python `repr` prints escapes. -/
def hexDigit (n : Nat) : Char :=
  if n < 10 then Char.ofNat (48 + n) else Char.ofNat (87 + n)

/-- One character of Python `repr` of a string, escaped for quote
character `q` (ASCII scope). -/
def pyEscapeChar (q : Char) (c : Char) : List Char :=
  if c = '\\' then ['\\', '\\']
  else if c = q then ['\\', q]
  else if c = '\n' then ['\\', 'n']
  else if c = '\r' then ['\\', 'r']
  else if c = '\t' then ['\\', 't']
  else if c.toNat < 32 || c.toNat = 127 then
    ['\\', 'x', hexDigit (c.toNat / 16), hexDigit (c.toNat % 16)]
  else [c]

/-- Python `repr` of a string: single quotes, switching to double quotes
when the string contains a single quote but no double quote. -/
def pyQuote (s : List Char) : List Char :=
  let q := if s.contains '\'' && !(s.contains '"') then '"' else '\''
  q :: s.flatMap (pyEscapeChar q) ++ [q]

mutual

/-- Python `repr` of a value (ASCII scope for string escapes).  A float
renders as the decimal string it is carried as. -/
def pyRepr : Value → List Char
  | .null => chars "None"
  | .bool true => chars "True"
  | .bool false => chars "False"
  | .int n => chars (toString n)
  | .float r => r
  | .str s => pyQuote s
  | .notSet => chars "NotSet"
  | .list xs => '[' :: List.intercalate (chars ", ") (pyReprSeq xs) ++ [']']
  | .dict kvs => '\x7b' :: List.intercalate (chars ", ") (pyReprMap kvs) ++ ['\x7d']

def pyReprSeq : List Value → List (List Char)
  | [] => []
  | x :: xs => pyRepr x :: pyReprSeq xs

def pyReprMap : List (List Char × Value) → List (List Char)
  | [] => []
  | (k, v) :: kvs => (pyQuote k ++ chars ": " ++ pyRepr v) :: pyReprMap kvs

end

/-- Python `str()` of a value: the identity on strings, `repr` otherwise
(for these types `__str__` coincides with `__repr__`, and containers
render their elements with `repr`). -/
def pyStr : Value → List Char
  | .str s => s
  | v => pyRepr v

/-- The interpolation loop of `apply_values` (lines 116-122 of the
source): for each placeholder whose name is a key of `values` with a
non-null value and whose kind is `STANDARD`, replace all occurrences of
its full match with the `str()` rendering of the value. -/
def applyStrLoop (values : Ctx) : List Placeholder → List Char → List Char
  | [], s => s
  | p :: ps, s =>
    match assocGet values p.name with
    | some v =>
      if !(isNull v) && (p.type = .standard : Bool) then
        applyStrLoop values ps (strReplace s p.full_match (pyStr v))
      else applyStrLoop values ps s
    | none => applyStrLoop values ps s

mutual

/-- Source `apply_values(template, values)`.  The `Value` grammar is
closed, so the `ValueError` branch for unexpected types is unreachable by
construction. -/
def apply_values : Value → Ctx → Value
  | .null, _ => .null
  | .bool b, _ => .bool b
  | .int n, _ => .int n
  | .float r, _ => .float r
  | .notSet, _ => .notSet
  | .str s, values =>
    match findPlaceholdersStr s with
    | [] => .str s
    | p :: ps =>
      if ps = [] ∧ p.full_match = s ∧ p.type = .standard then
        match assocGet values p.name with
        | some v => v
        | none => .notSet
      else .str (applyStrLoop values (p :: ps) s)
  | .list xs, values => .list (applyValuesSeq values xs)
  | .dict kvs, values => .dict (applyValuesMap values kvs)

/-- The list loop of `apply_values`: resolve each element, dropping those
that resolve to `NotSet`. -/
def applyValuesSeq (values : Ctx) : List Value → List Value
  | [] => []
  | x :: xs =>
    let r := apply_values x values
    if isNotSet r then applyValuesSeq values xs else r :: applyValuesSeq values xs

/-- The dict loop of `apply_values`: resolve each value, dropping keys
whose value resolves to `NotSet`. -/
def applyValuesMap (values : Ctx) : List (List Char × Value) → List (List Char × Value)
  | [] => []
  | (k, v) :: kvs =>
    let r := apply_values v values
    if isNotSet r then applyValuesMap values kvs else (k, r) :: applyValuesMap values kvs

end

/-- The error kinds of the engine.  `unsupportedType` is the
`ValueError("Unexpected type: ...")` of `find_placeholders`,
`invalidTemplate` the `ValueError("Invalid template: ...")` of
`resolve_block_document_references`, `malformedReference` the
`ValueError` Python raises when unpacking a split of the wrong arity, and
`notFound` the lookup capability's failure, propagated unchanged. -/
inductive TemplError where
  | unsupportedType
  | invalidTemplate
  | malformedReference
  | notFound
  | attributeError
deriving DecidableEq

/-- Equality on `Except` results is decidable componentwise. -/
instance {e a : Type} [DecidableEq e] [DecidableEq a] : DecidableEq (Except e a) := fun x y => by
  cases x with
  | ok v => cases y with
    | ok w => exact decidable_of_iff (v = w) (by simp)
    | error f => exact isFalse (by simp)
  | error u => cases y with
    | ok w => exact isFalse (by simp)
    | error f => exact decidable_of_iff (u = f) (by simp)

/-- Union of two placeholder sets, in the list-with-first-occurrence-order
representation of Python sets used here. -/
def unionPlaceholders (a b : List Placeholder) : List Placeholder :=
  dedupAux [] (a ++ b)

mutual

/-- Source `find_placeholders(template)`.  Numbers and booleans yield the
empty set; strings are scanned by the regex; dicts and lists take the
union over their values/elements; every other input - including `None`
and `NotSet`, which no `isinstance` branch matches - raises
`ValueError("Unexpected type: ...")`. -/
def find_placeholders : Value → Except TemplError (List Placeholder)
  | .int _ => .ok []
  | .float _ => .ok []
  | .bool _ => .ok []
  | .str s => .ok (findPlaceholdersStr s)
  | .dict kvs => findPlaceholdersMap kvs
  | .list xs => findPlaceholdersSeq xs
  | .null => .error .unsupportedType
  | .notSet => .error .unsupportedType

def findPlaceholdersSeq : List Value → Except TemplError (List Placeholder)
  | [] => .ok []
  | x :: xs =>
    match find_placeholders x with
    | .error e => .error e
    | .ok a =>
      match findPlaceholdersSeq xs with
      | .error e => .error e
      | .ok b => .ok (unionPlaceholders a b)

def findPlaceholdersMap : List (List Char × Value) → Except TemplError (List Placeholder)
  | [] => .ok []
  | (_, v) :: kvs =>
    match find_placeholders v with
    | .error e => .error e
    | .ok a =>
      match findPlaceholdersMap kvs with
      | .error e => .error e
      | .ok b => .ok (unionPlaceholders a b)

end

/-- Modelled from the spec: the external document-lookup capability
(`PrefectClient.read_block_document` and
`read_block_document_by_name` in the source, whose code is not part of
this repository slice).  Each operation returns the referenced document's
payload (`block_document.data`), or nothing when no such document exists
(`NotFoundError`). -/
structure Lookup where
  fetch_by_id : Value → Option Value
  fetch_by_name : List Char → List Char → Option Value

/-- Python truthiness of a value, as tested by `if block_document_id:`.
Falsy floats are `0.0` and `-0.0`, whose carried renderings are exactly
those strings.  The sentinel is a Python class object, hence truthy. -/
def truthy : Value → Bool
  | .null => false
  | .bool b => b
  | .int n => n != 0
  | .float r => !(r = chars "0.0" || r = chars "-0.0")
  | .str s => !s.isEmpty
  | .list xs => !xs.isEmpty
  | .dict kvs => !kvs.isEmpty
  | .notSet => true

/-- The key `$ref` of a Reference Object. -/
def refKey : List Char := chars "$ref"

/-- The key `block_document_id` inside a Reference Object. -/
def blockDocumentIdKey : List Char := chars "block_document_id"

mutual

/-- Source `resolve_block_document_references(template, client)`, with the
client modelled by the `Lookup` capability (the source's recursive call in
the dict branch omits the client and has one injected, which denotes the
same store).  A dict whose `$ref` value is present but is not itself a
dict makes Python's `.get` raise `AttributeError`. -/
def resolve_block_document_references (template : Value) (lk : Lookup) :
    Except TemplError Value :=
  match template with
  | .dict kvs =>
    match assocGet kvs refKey with
    | some (.dict inner) =>
      match assocGet inner blockDocumentIdKey with
      | some idv =>
        if truthy idv then
          match lk.fetch_by_id idv with
          | some payload => .ok payload
          | none => .error .notFound
        else
          match resolveMap kvs lk with
          | .ok kvs' => .ok (.dict kvs')
          | .error e => .error e
      | none =>
        match resolveMap kvs lk with
        | .ok kvs' => .ok (.dict kvs')
        | .error e => .error e
    | some _ => .error .attributeError
    | none =>
      match resolveMap kvs lk with
      | .ok kvs' => .ok (.dict kvs')
      | .error e => .error e
  | .list xs =>
    match resolveSeq xs lk with
    | .ok xs' => .ok (.list xs')
    | .error e => .error e
  | .str s =>
    match findPlaceholdersStr s with
    | [] => .ok (.str s)
    | p :: ps =>
      if !((p :: ps).any (fun q => q.type = .blockDocument)) then .ok (.str s)
      else if ps = [] ∧ p.full_match = s ∧ p.type = .blockDocument then
        match splitOnChar '.' (strReplace p.name blockDocumentMarker []) with
        | [slug, nm] =>
          match lk.fetch_by_name nm slug with
          | some payload => .ok payload
          | none => .error .notFound
        | _ => .error .malformedReference
      else .error .invalidTemplate
  | other => .ok other

/-- The list branch: resolve each element in order, preserving order and
length; the first error aborts the whole call. -/
def resolveSeq : List Value → Lookup → Except TemplError (List Value)
  | [], _ => .ok []
  | x :: xs, lk =>
    match resolve_block_document_references x lk with
    | .error e => .error e
    | .ok r =>
      match resolveSeq xs lk with
      | .error e => .error e
      | .ok rs => .ok (r :: rs)

/-- The non-reference dict branch: resolve each value in order, keeping
every key; the first error aborts the whole call. -/
def resolveMap : List (List Char × Value) → Lookup → Except TemplError (List (List Char × Value))
  | [], _ => .ok []
  | (k, v) :: kvs, lk =>
    match resolve_block_document_references v lk with
    | .error e => .error e
    | .ok r =>
      match resolveMap kvs lk with
      | .error e => .error e
      | .ok rs => .ok ((k, r) :: rs)

end

mutual

/-- No `NotSet` sentinel occurs anywhere in the value (the spec's "legal
Value Tree"). -/
def sentinelFree : Value → Bool
  | .notSet => false
  | .list xs => sentinelFreeSeq xs
  | .dict kvs => sentinelFreeMap kvs
  | _ => true

def sentinelFreeSeq : List Value → Bool
  | [] => true
  | x :: xs => sentinelFree x && sentinelFreeSeq xs

def sentinelFreeMap : List (List Char × Value) → Bool
  | [] => true
  | (_, v) :: kvs => sentinelFree v && sentinelFreeMap kvs

end

mutual

/-- No string anywhere in the value contains a placeholder. -/
def phFree : Value → Bool
  | .str s => (findPlaceholdersStr s).isEmpty
  | .list xs => phFreeSeq xs
  | .dict kvs => phFreeMap kvs
  | _ => true

def phFreeSeq : List Value → Bool
  | [] => true
  | x :: xs => phFree x && phFreeSeq xs

def phFreeMap : List (List Char × Value) → Bool
  | [] => true
  | (_, v) :: kvs => phFree v && phFreeMap kvs

end

mutual

/-- No string anywhere in the value contains a placeholder whose name is a
key of the context (the hypothesis of the spec's idempotence property). -/
def noCtxPlaceholders (values : Ctx) : Value → Bool
  | .str s => (findPlaceholdersStr s).all (fun p => (assocGet values p.name).isNone)
  | .list xs => noCtxPlaceholdersSeq values xs
  | .dict kvs => noCtxPlaceholdersMap values kvs
  | _ => true

def noCtxPlaceholdersSeq (values : Ctx) : List Value → Bool
  | [] => true
  | x :: xs => noCtxPlaceholders values x && noCtxPlaceholdersSeq values xs

def noCtxPlaceholdersMap (values : Ctx) : List (List Char × Value) → Bool
  | [] => true
  | (_, v) :: kvs => noCtxPlaceholders values v && noCtxPlaceholdersMap values kvs

end

/-- Every value of the context is a legal Value Tree (sentinel-free). -/
def legalCtx (values : Ctx) : Bool := values.all (fun kv => sentinelFree kv.2)

theorem sentinelFree_isNotSet {v : Value} (h : sentinelFree v = true) :
    isNotSet v = false := by
  cases v <;> simp_all [sentinelFree, isNotSet]

theorem assocGet_sentinelFree :
    ∀ values : Ctx, legalCtx values = true →
      ∀ k v, assocGet values k = some v → sentinelFree v = true := by
  intro values hctx k v
  induction values with
  | nil => simp [assocGet]
  | cons kv rest ih =>
    simp only [legalCtx, List.all_cons, Bool.and_eq_true] at hctx
    simp only [assocGet]
    split
    · intro he
      cases he
      exact hctx.1
    · exact ih hctx.2

theorem applyValuesSeq_eq (values : Ctx) :
    ∀ xs : List Value,
      applyValuesSeq values xs
        = (xs.map (fun x => apply_values x values)).filter (fun r => !isNotSet r) := by
  intro xs
  induction xs with
  | nil => simp [applyValuesSeq]
  | cons x xs ih =>
    simp only [applyValuesSeq, List.map_cons, List.filter_cons, ih]
    cases h : isNotSet (apply_values x values) <;> simp [h]

theorem applyValuesMap_eq (values : Ctx) :
    ∀ kvs : List (List Char × Value),
      applyValuesMap values kvs
        = (kvs.map (fun kv => (kv.1, apply_values kv.2 values))).filter
            (fun kv => !isNotSet kv.2) := by
  intro kvs
  induction kvs with
  | nil => simp [applyValuesMap]
  | cons kv kvs ih =>
    obtain ⟨k, v⟩ := kv
    simp only [applyValuesMap, List.map_cons, List.filter_cons, ih]
    cases h : isNotSet (apply_values v values) <;> simp [h]

theorem resolveMap_keys :
    ∀ (kvs : List (List Char × Value)) (lk : Lookup) kvs',
      resolveMap kvs lk = .ok kvs' → kvs'.map Prod.fst = kvs.map Prod.fst := by
  intro kvs lk
  induction kvs with
  | nil =>
    intro kvs' h
    simp only [resolveMap] at h
    cases h
    rfl
  | cons kv rest ih =>
    obtain ⟨k, v⟩ := kv
    intro kvs' h
    simp only [resolveMap] at h
    cases hv : resolve_block_document_references v lk with
    | error e => rw [hv] at h; cases h
    | ok r =>
      rw [hv] at h
      cases hr : resolveMap rest lk with
      | error e => rw [hr] at h; cases h
      | ok rs =>
        rw [hr] at h
        cases h
        simp [ih rs hr]

mutual

/-- Where the sentinel can appear in a result of `apply_values` over a
legal context: either the result is sentinel-free, or it is the sentinel
itself, and then the input was the sentinel or a string that is exactly
one unresolved `STANDARD` placeholder. -/
theorem apply_values_sentinel (values : Ctx) (hctx : legalCtx values = true) :
    ∀ v : Value,
      sentinelFree (apply_values v values) = true ∨
      (apply_values v values = .notSet ∧
        (v = .notSet ∨ ∃ s p, v = .str s ∧ findPlaceholdersStr s = [p] ∧
          p.full_match = s ∧ p.type = .standard ∧ assocGet values p.name = none))
  | .null => by simp [apply_values, sentinelFree]
  | .bool b => by simp [apply_values, sentinelFree]
  | .int n => by simp [apply_values, sentinelFree]
  | .float r => by simp [apply_values, sentinelFree]
  | .notSet => by
      right
      exact ⟨rfl, .inl rfl⟩
  | .str s => by
      simp only [apply_values]
      cases h : findPlaceholdersStr s with
      | nil => left; simp [sentinelFree]
      | cons p ps =>
        dsimp only
        by_cases hc : ps = [] ∧ p.full_match = s ∧ p.type = .standard
        · rw [if_pos hc]
          cases hg : assocGet values p.name with
          | some v =>
            left
            exact assocGet_sentinelFree values hctx _ _ hg
          | none =>
            right
            refine ⟨rfl, .inr ⟨s, p, rfl, ?_, hc.2.1, hc.2.2, hg⟩⟩
            rw [h, hc.1]
        · rw [if_neg hc]
          left
          simp [sentinelFree]
  | .list xs => by
      simp only [apply_values]
      left
      simpa [sentinelFree] using apply_values_seq_sentinel values hctx xs
  | .dict kvs => by
      simp only [apply_values]
      left
      simpa [sentinelFree] using apply_values_map_sentinel values hctx kvs

theorem apply_values_seq_sentinel (values : Ctx) (hctx : legalCtx values = true) :
    ∀ xs : List Value, sentinelFreeSeq (applyValuesSeq values xs) = true
  | [] => by simp [applyValuesSeq, sentinelFreeSeq]
  | x :: xs => by
      simp only [applyValuesSeq]
      cases hr : isNotSet (apply_values x values) with
      | true => simpa using apply_values_seq_sentinel values hctx xs
      | false =>
        rcases apply_values_sentinel values hctx x with hx | hx
        · simp [sentinelFreeSeq, hx, apply_values_seq_sentinel values hctx xs]
        · rw [hx.1] at hr
          simp [isNotSet] at hr

theorem apply_values_map_sentinel (values : Ctx) (hctx : legalCtx values = true) :
    ∀ kvs : List (List Char × Value), sentinelFreeMap (applyValuesMap values kvs) = true
  | [] => by simp [applyValuesMap, sentinelFreeMap]
  | (k, v) :: kvs => by
      simp only [applyValuesMap]
      cases hr : isNotSet (apply_values v values) with
      | true => simpa using apply_values_map_sentinel values hctx kvs
      | false =>
        rcases apply_values_sentinel values hctx v with hx | hx
        · simp [sentinelFreeMap, hx, apply_values_map_sentinel values hctx kvs]
        · rw [hx.1] at hr
          simp [isNotSet] at hr

end

mutual

/-- A sentinel-free, placeholder-free value is a fixed point of
`apply_values`. -/
theorem apply_values_fixed (values : Ctx) :
    ∀ v : Value, sentinelFree v = true → phFree v = true → apply_values v values = v
  | .null, _, _ => by simp [apply_values]
  | .bool b, _, _ => by simp [apply_values]
  | .int n, _, _ => by simp [apply_values]
  | .float r, _, _ => by simp [apply_values]
  | .notSet, hs, _ => by simp [sentinelFree] at hs
  | .str s, _, hp => by
      simp only [phFree, List.isEmpty_iff] at hp
      simp [apply_values, hp]
  | .list xs, hs, hp => by
      simp only [sentinelFree] at hs
      simp only [phFree] at hp
      simp only [apply_values]
      rw [apply_values_seq_fixed values xs hs hp]
  | .dict kvs, hs, hp => by
      simp only [sentinelFree] at hs
      simp only [phFree] at hp
      simp only [apply_values]
      rw [apply_values_map_fixed values kvs hs hp]

theorem apply_values_seq_fixed (values : Ctx) :
    ∀ xs : List Value, sentinelFreeSeq xs = true → phFreeSeq xs = true →
      applyValuesSeq values xs = xs
  | [], _, _ => rfl
  | x :: xs, hs, hp => by
      simp only [sentinelFreeSeq, Bool.and_eq_true] at hs
      simp only [phFreeSeq, Bool.and_eq_true] at hp
      simp only [applyValuesSeq]
      rw [apply_values_fixed values x hs.1 hp.1, sentinelFree_isNotSet hs.1]
      simp [apply_values_seq_fixed values xs hs.2 hp.2]

theorem apply_values_map_fixed (values : Ctx) :
    ∀ kvs : List (List Char × Value), sentinelFreeMap kvs = true → phFreeMap kvs = true →
      applyValuesMap values kvs = kvs
  | [], _, _ => rfl
  | (k, v) :: kvs, hs, hp => by
      simp only [sentinelFreeMap, Bool.and_eq_true] at hs
      simp only [phFreeMap, Bool.and_eq_true] at hp
      simp only [applyValuesMap]
      rw [apply_values_fixed values v hs.1 hp.1, sentinelFree_isNotSet hs.1]
      simp [apply_values_map_fixed values kvs hs.2 hp.2]

end

/-- The interpolation loop's effect as a left fold over the placeholder
set in its enumeration order: each qualifying placeholder (name bound to a
non-null value, kind `STANDARD`) replaces all occurrences of its full
match in the current string with the value's `str()` rendering. -/
def sequentialInterpolation (values : Ctx) (ps : List Placeholder) (s : List Char) : List Char :=
  ps.foldl (fun acc p =>
    match assocGet values p.name with
    | some v =>
      if !(isNull v) && (p.type = .standard : Bool) then strReplace acc p.full_match (pyStr v)
      else acc
    | none => acc) s

theorem applyStrLoop_eq (values : Ctx) :
    ∀ (ps : List Placeholder) (s : List Char),
      applyStrLoop values ps s = sequentialInterpolation values ps s
  | [], s => rfl
  | p :: ps, s => by
      simp only [applyStrLoop, sequentialInterpolation, List.foldl_cons]
      cases hg : assocGet values p.name with
      | some v =>
        cases hv : !(isNull v) && decide (p.type = .standard) with
        | true =>
          simpa [sequentialInterpolation, hv] using
            applyStrLoop_eq values ps (strReplace s p.full_match (pyStr v))
        | false => simpa [sequentialInterpolation, hv] using applyStrLoop_eq values ps s
      | none => simpa [sequentialInterpolation] using applyStrLoop_eq values ps s

/-- Modelled from the spec's words for the textual-interpolation rule: a
single simultaneous pass over the original string, replacing each
occurrence of a qualifying placeholder's exact substring by its
replacement, never rescanning replacement text.  Fuel is the length of
the input. -/
def simulSubstAux (subs : List (List Char × List Char)) : Nat → List Char → List Char
  | 0, s => s
  | _ + 1, [] => []
  | fuel + 1, c :: cs =>
    match subs.find? (fun pr => !pr.1.isEmpty && pr.1.isPrefixOf (c :: cs)) with
    | some pr => pr.2 ++ simulSubstAux subs fuel ((c :: cs).drop pr.1.length)
    | none => c :: simulSubstAux subs fuel cs

/-- Simultaneous replacement over a whole string. -/
def simulSubst (subs : List (List Char × List Char)) (s : List Char) : List Char :=
  simulSubstAux subs s.length s

/-- Modelled from the spec's words: the output the claim describes for the
textual-interpolation branch - every `STANDARD` placeholder with a
non-null context value has its exact substring replaced by the value's
string rendering, all other text (including non-qualifying placeholders)
surviving verbatim. -/
def claimedInterpolation (values : Ctx) (s : List Char) : List Char :=
  simulSubst ((findPlaceholdersStr s).filterMap (fun p =>
    match assocGet values p.name with
    | some v =>
      if !(isNull v) && (p.type = .standard : Bool) then some (p.full_match, pyStr v) else none
    | none => none)) s

/-- C1: for every context and every string template that is exactly one
`STANDARD` placeholder whose full match equals the entire string,
`apply_values` returns the context's value for the placeholder's name
unchanged (type-preserving) when the name is a key of the context, and
returns the `NotSet` sentinel when it is not. -/
theorem claim_C1 (s : List Char) (values : Ctx) (p : Placeholder)
    (h : findPlaceholdersStr s = [p]) (hfull : p.full_match = s)
    (hstd : p.type = .standard) :
    (∀ v, assocGet values p.name = some v → apply_values (.str s) values = v) ∧
    (assocGet values p.name = none → apply_values (.str s) values = .notSet) := by
  have e : apply_values (.str s) values =
      match assocGet values p.name with
      | some v => v
      | none => .notSet := by
    simp only [apply_values, h]
    rw [if_pos ⟨by simp, hfull, hstd⟩]
  constructor
  · intro v hv
    rw [e, hv]
  · intro hn
    rw [e, hn]

/-- Witness for C1: a mapping value is substituted unchanged for a
present name; a missing name yields the sentinel. -/
theorem claim_C1_witness :
    apply_values (.str (chars "\x7b\x7b n \x7d\x7d"))
        [(chars "n", .dict [(chars "k", .bool true)])]
      = .dict [(chars "k", .bool true)] ∧
    apply_values (.str (chars "\x7b\x7bmissing\x7d\x7d")) [] = .notSet := by
  constructor
  · exact (claim_C1 (chars "\x7b\x7b n \x7d\x7d") _
      ⟨chars "\x7b\x7b n \x7d\x7d", chars "n", .standard⟩
      (by decide) (by decide) (by decide)).1 _ (by decide)
  · exact (claim_C1 (chars "\x7b\x7bmissing\x7d\x7d") []
      ⟨chars "\x7b\x7bmissing\x7d\x7d", chars "missing", .standard⟩
      (by decide) (by decide) (by decide)).2 (by decide)

/-- C3: `apply_values` on a sequence resolves every element and keeps, in
order, exactly those whose resolution is not the sentinel; on a mapping it
resolves every value and keeps, in order, exactly the keys whose value's
resolution is not the sentinel. -/
theorem claim_C3 (values : Ctx) (xs : List Value) (kvs : List (List Char × Value)) :
    apply_values (.list xs) values
      = .list ((xs.map (fun x => apply_values x values)).filter (fun r => !isNotSet r)) ∧
    apply_values (.dict kvs) values
      = .dict ((kvs.map (fun kv => (kv.1, apply_values kv.2 values))).filter
          (fun kv => !isNotSet kv.2)) := by
  constructor
  · simp only [apply_values]
    rw [applyValuesSeq_eq]
  · simp only [apply_values]
    rw [applyValuesMap_eq]

/-- Counterexample to C6 as stated: `find_placeholders` does not return
the empty set on null input - no `isinstance` branch matches `None`, so
the function raises `ValueError` (`UnsupportedTypeError`). -/
theorem claim_C6_counterexample :
    find_placeholders .null = .error .unsupportedType ∧
    find_placeholders .null ≠ .ok [] := by decide

/-- C6 amended: `find_placeholders` returns the empty set for every
integer, float and boolean input; a null input raises
`UnsupportedTypeError` instead of returning the empty set. -/
theorem claim_C6_amended :
    (∀ n : Int, find_placeholders (.int n) = .ok []) ∧
    (∀ r : List Char, find_placeholders (.float r) = .ok []) ∧
    (∀ b : Bool, find_placeholders (.bool b) = .ok []) ∧
    find_placeholders .null = .error .unsupportedType :=
  ⟨fun _ => rfl, fun _ => rfl, fun _ => rfl, rfl⟩

/-- C7: a mapping that is a Reference Object (its `$ref` value is a
mapping carrying a truthy `block_document_id`) resolves to the payload of
`fetch_by_id` on that id, consuming the whole mapping. -/
theorem claim_C7 (kvs inner : List (List Char × Value)) (idv payload : Value) (lk : Lookup)
    (href : assocGet kvs refKey = some (.dict inner))
    (hid : assocGet inner blockDocumentIdKey = some idv)
    (ht : truthy idv = true)
    (hf : lk.fetch_by_id idv = some payload) :
    resolve_block_document_references (.dict kvs) lk = .ok payload := by
  simp [resolve_block_document_references, href, hid, ht, hf]

/-- Witness for C7: the spec's round trip - resolving
`(dollar)ref -> block_document_id "abc"` with a lookup sending `"abc"` to
payload `(k: 1)` yields exactly that payload. -/
theorem claim_C7_witness :
    resolve_block_document_references
        (.dict [(chars "$ref", .dict [(chars "block_document_id", .str (chars "abc"))])])
        ⟨fun v => if v = .str (chars "abc") then some (.dict [(chars "k", .int 1)]) else none,
         fun _ _ => none⟩
      = .ok (.dict [(chars "k", .int 1)]) :=
  claim_C7 [(chars "$ref", .dict [(chars "block_document_id", .str (chars "abc"))])]
    [(chars "block_document_id", .str (chars "abc"))] (.str (chars "abc"))
    (.dict [(chars "k", .int 1)]) _ (by decide) (by decide) (by decide) (by decide)

/-- C10: a mapping whose `$ref` value is a mapping that lacks
`block_document_id` or binds it to a falsy value is not treated as a
Reference Object: for every lookup, resolution takes the ordinary
recursion over the mapping's values, and a successful recursion rebuilds
the mapping with exactly the same keys in the same order. -/
theorem claim_C10 (kvs inner : List (List Char × Value)) (lk : Lookup)
    (href : assocGet kvs refKey = some (.dict inner))
    (hid : assocGet inner blockDocumentIdKey = none ∨
      ∃ w, assocGet inner blockDocumentIdKey = some w ∧ truthy w = false) :
    (resolve_block_document_references (.dict kvs) lk
      = match resolveMap kvs lk with
        | .ok kvs' => .ok (.dict kvs')
        | .error e => .error e) ∧
    (∀ kvs', resolveMap kvs lk = .ok kvs' → kvs'.map Prod.fst = kvs.map Prod.fst) := by
  refine ⟨?_, fun kvs' h => resolveMap_keys kvs lk kvs' h⟩
  rcases hid with hid | ⟨w, hw, htw⟩
  · simp [resolve_block_document_references, href, hid]
  · simp [resolve_block_document_references, href, hw, htw]

/-- Witness for C10: a `$ref` whose inner mapping binds
`block_document_id` to null is left alone and the mapping is rebuilt with
its keys. -/
theorem claim_C10_witness :
    resolve_block_document_references
        (.dict [(chars "$ref", .dict [(chars "block_document_id", .null)]),
                (chars "x", .str (chars "y"))])
        ⟨fun _ => none, fun _ _ => none⟩
      = .ok (.dict [(chars "$ref", .dict [(chars "block_document_id", .null)]),
                    (chars "x", .str (chars "y"))]) := by
  have h := (claim_C10
    [(chars "$ref", .dict [(chars "block_document_id", .null)]), (chars "x", .str (chars "y"))]
    [(chars "block_document_id", .null)] ⟨fun _ => none, fun _ _ => none⟩ (by decide)
    (.inr ⟨.null, by decide, by decide⟩)).1
  exact h.trans (by decide)

/-- Counterexample to C2 as stated: the loop replaces sequentially, so a
substituted value that reintroduces another placeholder's text is itself
rewritten by a later iteration.  On `x(a)(b)` with `a -> "(b)"` and
`b -> "2"` the code produces `x22`, while the claimed output - each
placeholder's exact substring replaced by its own value's rendering, all
other text verbatim - is `x(b)2`. -/
theorem claim_C2_counterexample :
    apply_values (.str (chars "x\x7b\x7ba\x7d\x7d\x7b\x7bb\x7d\x7d"))
        [(chars "a", .str (chars "\x7b\x7bb\x7d\x7d")), (chars "b", .str (chars "2"))]
      = .str (chars "x22") ∧
    claimedInterpolation
        [(chars "a", .str (chars "\x7b\x7bb\x7d\x7d")), (chars "b", .str (chars "2"))]
        (chars "x\x7b\x7ba\x7d\x7d\x7b\x7bb\x7d\x7d")
      = chars "x\x7b\x7bb\x7d\x7d2" ∧
    chars "x22" ≠ chars "x\x7b\x7bb\x7d\x7d2" := by decide

/-- C2 amended: on a string with at least one placeholder that is not a
lone full-string `STANDARD` placeholder, `apply_values` interpolates by
folding sequentially (in discovery order) over the placeholder set,
replacing for each qualifying `STANDARD` placeholder every occurrence of
its full match in the current string by the value's string rendering - so
a replacement may be rewritten by a later step - and placeholders whose
name is absent, bound to null, or of kind `BLOCK_DOCUMENT` trigger no
replacement; this branch always returns a string, never the sentinel. -/
theorem claim_C2_amended (s : List Char) (values : Ctx) (p : Placeholder)
    (ps : List Placeholder) (h : findPlaceholdersStr s = p :: ps)
    (hc : ¬(ps = [] ∧ p.full_match = s ∧ p.type = .standard)) :
    apply_values (.str s) values = .str (sequentialInterpolation values (p :: ps) s) ∧
    apply_values (.str s) values ≠ .notSet := by
  have e : apply_values (.str s) values = .str (applyStrLoop values (p :: ps) s) := by
    simp only [apply_values, h]
    rw [if_neg hc]
  refine ⟨?_, ?_⟩
  · rw [e, applyStrLoop_eq]
  · rw [e]
    simp

/-- Witness for C2 amended: the spec's own example
`pre-(x)-post` with `x -> 5` interpolates to `pre-5-post`. -/
theorem claim_C2_amended_witness :
    apply_values (.str (chars "pre-\x7b\x7bx\x7d\x7d-post")) [(chars "x", .int 5)]
      = .str (chars "pre-5-post") := by
  have h := (claim_C2_amended (chars "pre-\x7b\x7bx\x7d\x7d-post") [(chars "x", .int 5)]
    ⟨chars "\x7b\x7bx\x7d\x7d", chars "x", .standard⟩ [] (by decide) (by decide)).1
  exact h.trans (by decide)

/-- Counterexample to C8 as stated: with `ctx = (a -> "(c)")` and
`t = "(a)"`, the first pass yields the string `"(c)"`, which contains no
placeholder for a key of the context, yet a second pass turns it into the
sentinel, so `apply_values` is not idempotent under the claim's
hypothesis. -/
theorem claim_C8_counterexample :
    noCtxPlaceholders [(chars "a", .str (chars "\x7b\x7bc\x7d\x7d"))]
        (apply_values (.str (chars "\x7b\x7ba\x7d\x7d"))
          [(chars "a", .str (chars "\x7b\x7bc\x7d\x7d"))]) = true ∧
    apply_values
        (apply_values (.str (chars "\x7b\x7ba\x7d\x7d"))
          [(chars "a", .str (chars "\x7b\x7bc\x7d\x7d"))])
        [(chars "a", .str (chars "\x7b\x7bc\x7d\x7d"))]
      ≠ apply_values (.str (chars "\x7b\x7ba\x7d\x7d"))
          [(chars "a", .str (chars "\x7b\x7bc\x7d\x7d"))] := by decide

/-- C8 amended: one pass of `apply_values` reaches a fixed point whenever
the context's values are legal Value Trees and the first pass leaves no
placeholder at all anywhere in the result. -/
theorem claim_C8_amended (t : Value) (values : Ctx) (hctx : legalCtx values = true)
    (hph : phFree (apply_values t values) = true) :
    apply_values (apply_values t values) values = apply_values t values := by
  rcases apply_values_sentinel values hctx t with hx | hx
  · exact apply_values_fixed values _ hx hph
  · rw [hx.1]
    simp [apply_values]

/-- Witness for C8 amended: a mapping whose unresolved key is dropped and
whose resolved key is substituted is a fixed point of the second pass. -/
theorem claim_C8_amended_witness :
    apply_values
        (apply_values
          (.dict [(chars "a", .str (chars "\x7b\x7bmissing\x7d\x7d")),
                  (chars "b", .str (chars "\x7b\x7bx\x7d\x7d"))])
          [(chars "x", .int 1)])
        [(chars "x", .int 1)]
      = apply_values
          (.dict [(chars "a", .str (chars "\x7b\x7bmissing\x7d\x7d")),
                  (chars "b", .str (chars "\x7b\x7bx\x7d\x7d"))])
          [(chars "x", .int 1)] :=
  claim_C8_amended _ _ (by decide) (by decide)

/-- C9: over a legal context the sentinel never occurs inside a result of
`apply_values` - a sequence input yields a sentinel-free sequence, a
mapping input a sentinel-free mapping - and the sentinel is the overall
result only when the input is the sentinel itself or a string equal to a
single unresolved `STANDARD` placeholder. -/
theorem claim_C9 (t : Value) (values : Ctx) (hctx : legalCtx values = true) :
    (∀ xs, t = .list xs →
      ∃ ys, apply_values t values = .list ys ∧ sentinelFree (.list ys) = true) ∧
    (∀ kvs, t = .dict kvs →
      ∃ lvs, apply_values t values = .dict lvs ∧ sentinelFree (.dict lvs) = true) ∧
    (apply_values t values = .notSet →
      t = .notSet ∨ ∃ s p, t = .str s ∧ findPlaceholdersStr s = [p] ∧
        p.full_match = s ∧ p.type = .standard ∧ assocGet values p.name = none) := by
  refine ⟨?_, ?_, ?_⟩
  · rintro xs rfl
    exact ⟨applyValuesSeq values xs, by simp [apply_values],
      by simpa [sentinelFree] using apply_values_seq_sentinel values hctx xs⟩
  · rintro kvs rfl
    exact ⟨applyValuesMap values kvs, by simp [apply_values],
      by simpa [sentinelFree] using apply_values_map_sentinel values hctx kvs⟩
  · intro hns
    rcases apply_values_sentinel values hctx t with hx | hx
    · rw [hns] at hx
      simp [sentinelFree] at hx
    · exact hx.2

/-- Witness for C9: a nested input with unresolved placeholders resolves
to a sentinel-free tree. -/
theorem claim_C9_witness :
    sentinelFree
      (apply_values
        (.list [.str (chars "\x7b\x7bmissing\x7d\x7d"),
                .dict [(chars "a", .str (chars "\x7b\x7bmissing\x7d\x7d"))], .int 7])
        [(chars "x", .int 1)]) = true := by
  obtain ⟨ys, hy, hs⟩ := (claim_C9 _ [(chars "x", .int 1)] (by decide)).1 _ rfl
  rw [hy]
  exact hs

/-- Counterexample to C4 as stated: the name `prefect.blocks..` strips to
`.`, whose split on `.` yields two parts that are both empty; the claim
requires `MalformedReferenceError`, but the code accepts the split and
performs the lookup with two empty strings, returning its payload. -/
theorem claim_C4_counterexample :
    resolve_block_document_references (.str (chars "\x7b\x7bprefect.blocks..\x7d\x7d"))
        ⟨fun _ => some (.str (chars "X")), fun _ _ => some (.str (chars "X"))⟩
      = .ok (.str (chars "X")) ∧
    resolve_block_document_references (.str (chars "\x7b\x7bprefect.blocks..\x7d\x7d"))
        ⟨fun _ => some (.str (chars "X")), fun _ _ => some (.str (chars "X"))⟩
      ≠ .error .malformedReference := by decide

/-- C4 amended: for a string that is exactly one `BLOCK_DOCUMENT`
placeholder, the code removes every occurrence of the fixed prefix from
the name and splits the remainder on `.`; when the split has exactly two
parts `(block_type_slug, block_document_name)` - empty parts included -
it returns the payload of `fetch_by_name(block_document_name,
block_type_slug)` (propagating `NotFoundError`), and it fails with
`MalformedReferenceError` exactly when the split's arity is not two. -/
theorem claim_C4_amended (s : List Char) (lk : Lookup) (p : Placeholder)
    (h : findPlaceholdersStr s = [p]) (hfull : p.full_match = s)
    (hbd : p.type = .blockDocument) :
    (∀ slug nm,
      splitOnChar '.' (strReplace p.name blockDocumentMarker []) = [slug, nm] →
      resolve_block_document_references (.str s) lk
        = match lk.fetch_by_name nm slug with
          | some payload => .ok payload
          | none => .error .notFound) ∧
    ((splitOnChar '.' (strReplace p.name blockDocumentMarker [])).length ≠ 2 →
      resolve_block_document_references (.str s) lk = .error .malformedReference) := by
  have e : resolve_block_document_references (.str s) lk
      = match splitOnChar '.' (strReplace p.name blockDocumentMarker []) with
        | [slug, nm] =>
          (match lk.fetch_by_name nm slug with
           | some payload => Except.ok payload
           | none => Except.error TemplError.notFound)
        | _ => Except.error TemplError.malformedReference := by
    simp only [resolve_block_document_references, h]
    simp [hbd, hfull]
  constructor
  · intro slug nm hsp
    rw [e, hsp]
  · intro hlen
    rw [e]
    rcases hsp : splitOnChar '.' (strReplace p.name blockDocumentMarker [])
      with _ | ⟨a, _ | ⟨b, _ | ⟨c, t⟩⟩⟩
    · rfl
    · rfl
    · exact absurd (by simp [hsp]) hlen
    · rfl

/-- Witness for C4 amended: the spec's example
`(( prefect.blocks.secret.my-secret ))` resolves through
`fetch_by_name("my-secret", "secret")` to the stored payload. -/
theorem claim_C4_amended_witness :
    resolve_block_document_references
        (.str (chars "\x7b\x7b prefect.blocks.secret.my-secret \x7d\x7d"))
        ⟨fun _ => none,
         fun nm slug =>
           if nm = chars "my-secret" && slug = chars "secret" then
             some (.str (chars "s3cr3t"))
           else none⟩
      = .ok (.str (chars "s3cr3t")) := by
  have h := (claim_C4_amended (chars "\x7b\x7b prefect.blocks.secret.my-secret \x7d\x7d")
    ⟨fun _ => none,
     fun nm slug =>
       if nm = chars "my-secret" && slug = chars "secret" then
         some (.str (chars "s3cr3t"))
       else none⟩
    ⟨chars "\x7b\x7b prefect.blocks.secret.my-secret \x7d\x7d",
     chars "prefect.blocks.secret.my-secret", .blockDocument⟩
    (by decide) (by decide) (by decide)).1 (chars "secret") (chars "my-secret") (by decide)
  exact h.trans (by decide)

/-- C5: a string input of the Reference Resolver raises
`InvalidTemplateError` exactly when it contains a `BLOCK_DOCUMENT`
placeholder but is not a single `BLOCK_DOCUMENT` placeholder spanning the
entire string; a string without block-document placeholders is returned
unchanged. -/
theorem claim_C5 (s : List Char) (lk : Lookup) :
    (resolve_block_document_references (.str s) lk = .error .invalidTemplate ↔
      ((∃ p ∈ findPlaceholdersStr s, p.type = .blockDocument) ∧
        ¬ ∃ p, findPlaceholdersStr s = [p] ∧ p.full_match = s ∧
          p.type = .blockDocument)) ∧
    ((¬ ∃ p ∈ findPlaceholdersStr s, p.type = .blockDocument) →
      resolve_block_document_references (.str s) lk = .ok (.str s)) := by
  cases h : findPlaceholdersStr s with
  | nil =>
    have e : resolve_block_document_references (.str s) lk = .ok (.str s) := by
      simp only [resolve_block_document_references, h]
    constructor
    · constructor
      · intro he
        rw [e] at he
        simp at he
      · rintro ⟨⟨p, hp, -⟩, -⟩
        simp at hp
    · intro _
      exact e
  | cons q qs =>
    by_cases hb : ((q :: qs).any (fun r => (r.type = .blockDocument : Bool))) = true
    · by_cases hsingle : qs = [] ∧ q.full_match = s ∧ q.type = .blockDocument
      · have e : resolve_block_document_references (.str s) lk
            = match splitOnChar '.' (strReplace q.name blockDocumentMarker []) with
              | [slug, nm] =>
                (match lk.fetch_by_name nm slug with
                 | some payload => Except.ok payload
                 | none => Except.error TemplError.notFound)
              | _ => Except.error TemplError.malformedReference := by
          simp only [resolve_block_document_references, h]
          simp [hsingle]
        constructor
        · constructor
          · intro he
            rw [e] at he
            rcases hsp : splitOnChar '.' (strReplace q.name blockDocumentMarker [])
              with _ | ⟨a, _ | ⟨b, _ | ⟨c, t⟩⟩⟩
            · rw [hsp] at he
              simp at he
            · rw [hsp] at he
              simp at he
            · rw [hsp] at he
              dsimp only at he
              cases hf : lk.fetch_by_name b a with
              | some payload => rw [hf] at he; simp at he
              | none => rw [hf] at he; simp at he
            · rw [hsp] at he
              simp at he
          · rintro ⟨-, hno⟩
            exact absurd ⟨q, by rw [hsingle.1], hsingle.2.1, hsingle.2.2⟩ hno
        · intro hnb
          exfalso
          rw [List.any_eq_true] at hb
          rcases hb with ⟨r, hr, hrt⟩
          exact hnb ⟨r, hr, of_decide_eq_true hrt⟩
      · have e : resolve_block_document_references (.str s) lk
            = .error .invalidTemplate := by
          simp only [resolve_block_document_references, h]
          simp [hb, hsingle]
        constructor
        · constructor
          · intro _
            constructor
            · rw [List.any_eq_true] at hb
              rcases hb with ⟨r, hr, hrt⟩
              exact ⟨r, hr, of_decide_eq_true hrt⟩
            · rintro ⟨p', hp', hf', ht'⟩
              apply hsingle
              have h1 : q = p' ∧ qs = [] := by simpa [List.cons.injEq] using hp'
              refine ⟨h1.2, ?_, ?_⟩
              · rw [h1.1]
                exact hf'
              · rw [h1.1]
                exact ht'
          · intro _
            exact e
        · intro hnb
          exfalso
          rw [List.any_eq_true] at hb
          rcases hb with ⟨r, hr, hrt⟩
          exact hnb ⟨r, hr, of_decide_eq_true hrt⟩
    · have e : resolve_block_document_references (.str s) lk = .ok (.str s) := by
        simp only [resolve_block_document_references, h]
        simp only [Bool.not_eq_true] at hb
        simp [hb]
      constructor
      · constructor
        · intro he
          rw [e] at he
          simp at he
        · rintro ⟨⟨p', hp', ht'⟩, -⟩
          exfalso
          apply hb
          rw [List.any_eq_true]
          exact ⟨p', hp', decide_eq_true ht'⟩
      · intro _
        exact e

/-- Witness for C5: the spec's example - a block-document placeholder
preceded by other text raises `InvalidTemplateError`. -/
theorem claim_C5_witness :
    resolve_block_document_references
        (.str (chars "prefix-\x7b\x7b prefect.blocks.secret.my-secret \x7d\x7d"))
        ⟨fun _ => none, fun _ _ => none⟩
      = .error .invalidTemplate := by
  refine (claim_C5 _ _).1.mpr ⟨?_, ?_⟩
  · exact ⟨⟨chars "\x7b\x7b prefect.blocks.secret.my-secret \x7d\x7d",
      chars "prefect.blocks.secret.my-secret", .blockDocument⟩, by decide, by decide⟩
  · rintro ⟨p, hp, hfull, -⟩
    rw [show findPlaceholdersStr
        (chars "prefix-\x7b\x7b prefect.blocks.secret.my-secret \x7d\x7d")
      = [⟨chars "\x7b\x7b prefect.blocks.secret.my-secret \x7d\x7d",
          chars "prefect.blocks.secret.my-secret", .blockDocument⟩] from by decide] at hp
    have hq : p = ⟨chars "\x7b\x7b prefect.blocks.secret.my-secret \x7d\x7d",
        chars "prefect.blocks.secret.my-secret", .blockDocument⟩ := by
      simpa using hp.symm
    subst hq
    exact absurd hfull (by decide)
